import Mathlib

/-
Verification of the proof-of-anchor transparency-rating client.

This file gives a shallow embedding, in Lean, of the client-side core of
the repository: the string-heuristic transparency analyzer and legitimacy
assessor (frontend/src/App.tsx), the network-assisted transparency service
(frontend/src/services/transparencyService.ts), the session state machine
formed by the React handlers of App.tsx, and the error boundary of the
ledger shim (frontend/src/services/solanaService.ts).

Modelling conventions:
- JavaScript strings are Lean String values; character-level operations
  (toLowerCase over ASCII letters, includes, startsWith-style prefix
  stripping, trim) are defined on the underlying character list so that
  all definitions evaluate inside the kernel.
- JavaScript numbers are Int (where the source can go below zero before
  clamping) or Nat (where the source only adds non-negative deltas).
- Asynchronous calls that can reject are modelled with Except: the
  outcomes of the awaited network probes are supplied by an explicit
  environment record, and a rejected promise is an Except.error value.
- Wall-clock fields (lastVerified, lastCommit) and the wallet-connection
  flag are external inputs with no bearing on the verified properties and
  are omitted from the records.
- Mutable local variables updated by successive if-statements in the
  source are rendered as a sequence of shadowing let-bindings, one
  conditional per mutated variable, preserving the source order.
-/

namespace PoA

/-! ## String primitives (JavaScript semantics, ASCII) -/

/-- JavaScript s.includes(sub): sub occurs contiguously inside s. -/
def includes (s sub : String) : Bool := decide (sub.data <:+: s.data)

/-- JavaScript toLowerCase restricted to ASCII: uppercase letters A-Z are
shifted down by 32, all other characters are unchanged. -/
def lowerChar (c : Char) : Char :=
  if 65 ≤ c.toNat ∧ c.toNat ≤ 90 then Char.ofNat (c.toNat + 32) else c

/-- JavaScript s.toLowerCase() applied characterwise. -/
def toLower (s : String) : String := ⟨s.data.map lowerChar⟩

/-- JavaScript s.trim(): whitespace removed from both ends. -/
def trimStr (s : String) : String :=
  ⟨((s.data.dropWhile Char.isWhitespace).reverse.dropWhile Char.isWhitespace).reverse⟩

/-- JavaScript s.startsWith(p), used to model the anchored replace regexes. -/
def startsWith (p s : String) : Bool := p.data.isPrefixOf s.data

/-! ## Data model (frontend/src/types and service interfaces) -/

/-- TransparencyMetadata of the App.tsx analyzer (optional repository
statistics of the service variant are modelled separately). -/
structure TransparencyMetadata where
  hasPublicGithub : Bool
  hasDocumentedRoadmap : Bool
  hasAuditReports : Bool
  hasTeamVerification : Bool
  hasTokenEconomics : Bool
  codeReviewScore : Int
  deriving DecidableEq, Repr

/-- ProjectTransparencyData as produced by the App.tsx analyzer
(lastVerified, a wall-clock read, is omitted). -/
structure ProjectTransparencyData where
  domain : String
  transparencyScore : Int
  riskLevel : Int
  certificateValid : Bool
  metadata : TransparencyMetadata
  deriving DecidableEq, Repr

/-- LegitimacyAssessment record shared by both assessor variants. -/
structure LegitimacyAssessment where
  isLegitimate : Bool
  confidenceScore : Int
  riskFactors : List String
  transparencyIndicators : List String
  overallRecommendation : String
  deriving DecidableEq, Repr

/-- The vote a user casts in the session ({ isLegitimate, confidence }). -/
structure UserVote where
  isLegitimate : Bool
  confidence : Nat
  deriving DecidableEq, Repr

/-! ## String-heuristic analyzer (App.tsx, analyzeProjectTransparency) -/

/-- analyzeProjectTransparency of App.tsx: fixed point deltas from
substring matches on the lowercased domain, clamped to the score and risk
ranges at the end. Each mutated local of the source becomes a chain of
shadowing let-bindings in source order. -/
def analyzeProjectTransparency (domain : String) : ProjectTransparencyData :=
  let transparencyScore : Int := 50
  let riskLevel : Int := 5
  let hasPublicGithub := false
  let hasDocumentedRoadmap := false
  let hasAuditReports := false
  let hasTeamVerification := false
  let hasTokenEconomics := false
  let codeReviewScore : Int := 5
  let domainLower := toLower domain
  let gitKw := includes domainLower "github" || includes domainLower "git"
  let transparencyScore := if gitKw then transparencyScore + 20 else transparencyScore
  let hasPublicGithub := if gitKw then true else hasPublicGithub
  let codeReviewScore := if gitKw then 9 else codeReviewScore
  let officialKw := includes domainLower "official" || includes domainLower "org"
  let transparencyScore := if officialKw then transparencyScore + 15 else transparencyScore
  let hasTeamVerification := if officialKw then true else hasTeamVerification
  let auditKw := includes domainLower "audit" || includes domainLower "security"
  let transparencyScore := if auditKw then transparencyScore + 15 else transparencyScore
  let hasAuditReports := if auditKw then true else hasAuditReports
  let roadmapKw := includes domainLower "roadmap" || includes domainLower "docs"
  let transparencyScore := if roadmapKw then transparencyScore + 10 else transparencyScore
  let hasDocumentedRoadmap := if roadmapKw then true else hasDocumentedRoadmap
  let tokenKw := includes domainLower "token" || includes domainLower "economics"
  let transparencyScore := if tokenKw then transparencyScore + 10 else transparencyScore
  let hasTokenEconomics := if tokenKw then true else hasTokenEconomics
  let testKw := includes domainLower "test" || includes domainLower "demo"
  let riskLevel := if testKw then 3 else riskLevel
  let scamKw := includes domainLower "scam" || includes domainLower "fake" ||
    includes domainLower "phishing"
  let riskLevel := if scamKw then 10 else riskLevel
  let transparencyScore := if scamKw then 10 else transparencyScore
  let hasPublicGithub := if scamKw then false else hasPublicGithub
  let hasDocumentedRoadmap := if scamKw then false else hasDocumentedRoadmap
  let hasAuditReports := if scamKw then false else hasAuditReports
  let hasTeamVerification := if scamKw then false else hasTeamVerification
  let hasTokenEconomics := if scamKw then false else hasTokenEconomics
  let codeReviewScore := if scamKw then 1 else codeReviewScore
  let newKw := includes domainLower "new" || includes domainLower "beta"
  let riskLevel := if newKw then riskLevel + 2 else riskLevel
  let transparencyScore := min 100 (max 0 transparencyScore)
  let riskLevel := min 10 (max 0 riskLevel)
  { domain := domain
    transparencyScore := transparencyScore
    riskLevel := riskLevel
    certificateValid := !(includes domainLower "invalid")
    metadata :=
      { hasPublicGithub := hasPublicGithub
        hasDocumentedRoadmap := hasDocumentedRoadmap
        hasAuditReports := hasAuditReports
        hasTeamVerification := hasTeamVerification
        hasTokenEconomics := hasTokenEconomics
        codeReviewScore := codeReviewScore } }

/-! ## Legitimacy assessor (App.tsx, assessLegitimacy) -/

/-- assessLegitimacy of App.tsx: rules applied in source order, pushing
human-readable factor strings and flipping the legitimacy flag. -/
def assessLegitimacy (projectData : ProjectTransparencyData) : LegitimacyAssessment :=
  let transparencyScore := projectData.transparencyScore
  let riskLevel := projectData.riskLevel
  let metadata := projectData.metadata
  let isLegitimate := true
  let confidenceScore := transparencyScore
  let riskFactors : List String := []
  let transparencyIndicators : List String := []
  let transparencyIndicators := if metadata.hasPublicGithub then
    transparencyIndicators ++ ["Public GitHub repository"] else transparencyIndicators
  let transparencyIndicators := if metadata.hasDocumentedRoadmap then
    transparencyIndicators ++ ["Documented project roadmap"] else transparencyIndicators
  let transparencyIndicators := if metadata.hasAuditReports then
    transparencyIndicators ++ ["Security audit reports available"] else transparencyIndicators
  let transparencyIndicators := if metadata.hasTeamVerification then
    transparencyIndicators ++ ["Team verification completed"] else transparencyIndicators
  let transparencyIndicators := if metadata.hasTokenEconomics then
    transparencyIndicators ++ ["Token economics documented"] else transparencyIndicators
  let isLegitimate := if riskLevel > 7 then false else isLegitimate
  let riskFactors := if riskLevel > 7 then
    riskFactors ++ ["High risk level detected"] else riskFactors
  let isLegitimate := if transparencyScore < 30 then false else isLegitimate
  let riskFactors := if transparencyScore < 30 then
    riskFactors ++ ["Low transparency score"] else riskFactors
  let riskFactors := if metadata.hasPublicGithub = false ∧ transparencyScore < 50 then
    riskFactors ++ ["No public code repository"] else riskFactors
  let riskFactors := if metadata.hasAuditReports = false ∧ riskLevel > 5 then
    riskFactors ++ ["No security audits found"] else riskFactors
  let recommendation :=
    if isLegitimate ∧ confidenceScore > 80 then
      "HIGHLY LEGITIMATE - Strong transparency indicators with minimal risk factors"
    else if isLegitimate ∧ confidenceScore > 60 then
      "LIKELY LEGITIMATE - Good transparency indicators with some areas for improvement"
    else if isLegitimate then
      "POSSIBLY LEGITIMATE - Some transparency indicators but requires further verification"
    else
      "SUSPICIOUS - Multiple risk factors detected, proceed with caution"
  { isLegitimate := isLegitimate
    confidenceScore := confidenceScore
    riskFactors := riskFactors
    transparencyIndicators := transparencyIndicators
    overallRecommendation := recommendation }

/-- The validity computed by handleVerifyProof (App.tsx and the
solana-backed variant compute the identical conjunction). -/
def isProofValid (legitimacyAssessment : LegitimacyAssessment)
    (projectData : ProjectTransparencyData) (userVote : UserVote) : Bool :=
  legitimacyAssessment.isLegitimate &&
    decide (projectData.transparencyScore > 30) && userVote.isLegitimate

/-! ## Domain normalizer (transparencyService.ts, cleanDomain) -/

/-- replace of the anchored regex for http:// or https:// (case-sensitive,
one occurrence, at the start only). -/
def stripScheme (s : String) : String :=
  if startsWith "https://" s then ⟨s.data.drop 8⟩
  else if startsWith "http://" s then ⟨s.data.drop 7⟩
  else s

/-- replace of the anchored regex for a leading www. prefix. -/
def stripWww (s : String) : String :=
  if startsWith "www." s then ⟨s.data.drop 4⟩ else s

/-- replace of the regex removing one trailing slash. -/
def stripTrailingSlash (s : String) : String :=
  if s.data.getLast? = some '/' then ⟨s.data.dropLast⟩ else s

/-- cleanDomain of transparencyService.ts: strip scheme, strip www.,
strip one trailing slash, then lowercase, in source order. -/
def cleanDomain (domain : String) : String :=
  toLower (stripTrailingSlash (stripWww (stripScheme domain)))

/-! ## Network-assisted analyzer (transparencyService.ts) -/

/-- Result of analyzeGithubPresence (lastCommit and license, not used by
any scored path, are omitted). -/
structure GithubData where
  found : Bool
  stars : Nat
  forks : Nat
  codeReviewScore : Nat
  deriving DecidableEq, Repr

/-- Result of fetchTlsCertificate (the issuer string is not scored). -/
structure CertInfo where
  isValid : Bool
  deriving DecidableEq, Repr

/-- Metadata of the service result record. -/
structure ServiceMetadata where
  hasPublicGithub : Bool
  hasDocumentedRoadmap : Bool
  hasAuditReports : Bool
  hasTeamVerification : Bool
  hasTokenEconomics : Bool
  codeReviewScore : Nat
  githubStars : Option Nat
  githubForks : Option Nat
  deriving DecidableEq, Repr

/-- TransparencyAnalysisResult of transparencyService.ts (lastVerified,
a wall-clock read, is omitted). -/
structure TransparencyAnalysisResult where
  domain : String
  transparencyScore : Nat
  riskLevel : Nat
  certificateValid : Bool
  metadata : ServiceMetadata
  deriving DecidableEq, Repr

/-- Input record of calculateTransparencyScore. -/
structure ScoreData where
  hasPublicGithub : Bool
  githubStars : Nat
  githubForks : Nat
  codeReviewScore : Nat
  hasDocumentedRoadmap : Bool
  hasAuditReports : Bool
  hasTeamVerification : Bool
  hasTokenEconomics : Bool
  domain : Option String
  deriving DecidableEq, Repr

/-- Input record of calculateRiskLevel. -/
structure RiskData where
  certificateValid : Bool
  hasPublicGithub : Bool
  githubStars : Nat
  codeReviewScore : Nat
  hasAuditReports : Bool
  domain : Option String
  deriving DecidableEq, Repr

/-- The static allow-list of isEstablishedCompany, in source order. -/
def establishedDomains : List String :=
  ["google.com", "microsoft.com", "apple.com", "amazon.com", "facebook.com",
   "twitter.com", "linkedin.com", "youtube.com", "instagram.com", "github.com",
   "stackoverflow.com", "reddit.com", "bluesky.app", "mastodon.social",
   "discord.com", "slack.com", "zoom.us", "netflix.com", "spotify.com",
   "ethereum.org", "ethereum.com", "bitcoin.org", "solana.com",
   "polygon.technology", "chainlink.network", "uniswap.org", "opensea.io"]

/-- isEstablishedCompany: some allow-list entry occurs inside the domain. -/
def isEstablishedCompany (domain : String) : Bool :=
  establishedDomains.any (fun established => includes domain established)

/-- calculateTransparencyScore: established domains start from the 85
baseline with small bonuses; unknown domains accumulate per-indicator
deltas plus star and code-review terms; capped at 100. -/
def calculateTransparencyScore (data : ScoreData) : Nat :=
  let score : Nat := 0
  let isEstablished := isEstablishedCompany (data.domain.getD "")
  let score :=
    if isEstablished then
      let score := 85
      let score := if data.hasPublicGithub then score + 5 else score
      let score := if data.hasTeamVerification then score + 5 else score
      let score := if data.hasAuditReports then score + 5 else score
      score
    else
      let score := if data.hasPublicGithub then score + 25 else score
      let score := if data.hasDocumentedRoadmap then score + 20 else score
      let score := if data.hasAuditReports then score + 25 else score
      let score := if data.hasTeamVerification then score + 15 else score
      let score := if data.hasTokenEconomics then score + 15 else score
      let score := score + min (data.githubStars / 100) 10
      let score := score + data.codeReviewScore / 4
      score
  min score 100

/-- calculateRiskLevel: established domains start at risk 1 and only a
bad certificate adds; unknown domains use the strict additive rules;
capped at 10. -/
def calculateRiskLevel (data : RiskData) : Nat :=
  let risk : Nat := 0
  let isEstablished := isEstablishedCompany (data.domain.getD "")
  let risk :=
    if isEstablished then
      let risk := 1
      let risk := if data.certificateValid = false then risk + 3 else risk
      risk
    else
      let risk := if data.certificateValid = false then risk + 5 else risk
      let risk := if data.githubStars = 0 ∧ data.hasPublicGithub then risk + 2 else risk
      let risk := if data.codeReviewScore < 30 then risk + 3 else risk
      let risk := if data.hasAuditReports = false ∧ data.githubStars > 100 then risk + 1 else risk
      risk
  min risk 10

/-- getFallbackAnalysis: the fixed result returned when the analysis
pipeline throws. -/
def getFallbackAnalysis (domain : String) : TransparencyAnalysisResult :=
  { domain := domain
    transparencyScore := 50
    riskLevel := 5
    certificateValid := true
    metadata :=
      { hasPublicGithub := false
        hasDocumentedRoadmap := false
        hasAuditReports := false
        hasTeamVerification := false
        hasTokenEconomics := false
        codeReviewScore := 50
        githubStars := none
        githubForks := none } }

/-- The outcomes of the awaited asynchronous helpers inside the service
analyzeProjectTransparency, as seen from the outer try block: each one
either resolves with a value or rejects with an error message. -/
structure NetEnv where
  certResult : Except String CertInfo
  githubResult : Except String GithubData
  roadmapResult : Except String Bool
  auditResult : Except String Bool
  teamResult : Except String Bool
  tokenResult : Except String Bool
  deriving Repr

/-- The body of the outer try block of the service
analyzeProjectTransparency: awaits the probes, then derives the scores.
The raw domain (not the cleaned one) is fed to the two calculators, while
the returned record carries the cleaned domain, as in the source. -/
def analyzeBody (env : NetEnv) (domain : String) :
    Except String TransparencyAnalysisResult := do
  let cleanedDomain := cleanDomain domain
  let certInfo ← env.certResult
  let githubData ← env.githubResult
  let hasRoadmap ← env.roadmapResult
  let hasAudits ← env.auditResult
  let hasTeamVerification ← env.teamResult
  let hasTokenEconomics ← env.tokenResult
  let transparencyScore := calculateTransparencyScore
    { hasPublicGithub := githubData.found
      githubStars := githubData.stars
      githubForks := githubData.forks
      codeReviewScore := githubData.codeReviewScore
      hasDocumentedRoadmap := hasRoadmap
      hasAuditReports := hasAudits
      hasTeamVerification := hasTeamVerification
      hasTokenEconomics := hasTokenEconomics
      domain := some domain }
  let riskLevel := calculateRiskLevel
    { certificateValid := certInfo.isValid
      hasPublicGithub := githubData.found
      githubStars := githubData.stars
      codeReviewScore := githubData.codeReviewScore
      hasAuditReports := hasAudits
      domain := some domain }
  pure
    { domain := cleanedDomain
      transparencyScore := transparencyScore
      riskLevel := riskLevel
      certificateValid := certInfo.isValid
      metadata :=
        { hasPublicGithub := githubData.found
          hasDocumentedRoadmap := hasRoadmap
          hasAuditReports := hasAudits
          hasTeamVerification := hasTeamVerification
          hasTokenEconomics := hasTokenEconomics
          codeReviewScore := githubData.codeReviewScore
          githubStars := some githubData.stars
          githubForks := some githubData.forks } }

/-- The service analyzeProjectTransparency with its catch-all: any
rejection inside the try block yields the fixed fallback result. -/
def analyzeProjectTransparencyNet (env : NetEnv) (domain : String) :
    TransparencyAnalysisResult :=
  match analyzeBody env domain with
  | .ok result => result
  | .error _ => getFallbackAnalysis domain

/-- assessLegitimacy of transparencyService.ts, identical rule for rule
to the App.tsx assessor but over the service result record. -/
def assessLegitimacyNet (projectData : TransparencyAnalysisResult) : LegitimacyAssessment :=
  let transparencyScore : Int := projectData.transparencyScore
  let riskLevel : Int := projectData.riskLevel
  let metadata := projectData.metadata
  let isLegitimate := true
  let confidenceScore := transparencyScore
  let riskFactors : List String := []
  let transparencyIndicators : List String := []
  let transparencyIndicators := if metadata.hasPublicGithub then
    transparencyIndicators ++ ["Public GitHub repository"] else transparencyIndicators
  let transparencyIndicators := if metadata.hasDocumentedRoadmap then
    transparencyIndicators ++ ["Documented project roadmap"] else transparencyIndicators
  let transparencyIndicators := if metadata.hasAuditReports then
    transparencyIndicators ++ ["Security audit reports available"] else transparencyIndicators
  let transparencyIndicators := if metadata.hasTeamVerification then
    transparencyIndicators ++ ["Team verification completed"] else transparencyIndicators
  let transparencyIndicators := if metadata.hasTokenEconomics then
    transparencyIndicators ++ ["Token economics documented"] else transparencyIndicators
  let isLegitimate := if riskLevel > 7 then false else isLegitimate
  let riskFactors := if riskLevel > 7 then
    riskFactors ++ ["High risk level detected"] else riskFactors
  let isLegitimate := if transparencyScore < 30 then false else isLegitimate
  let riskFactors := if transparencyScore < 30 then
    riskFactors ++ ["Low transparency score"] else riskFactors
  let riskFactors := if metadata.hasPublicGithub = false ∧ transparencyScore < 50 then
    riskFactors ++ ["No public code repository"] else riskFactors
  let riskFactors := if metadata.hasAuditReports = false ∧ riskLevel > 5 then
    riskFactors ++ ["No security audits found"] else riskFactors
  let recommendation :=
    if isLegitimate ∧ confidenceScore > 80 then
      "HIGHLY LEGITIMATE - Strong transparency indicators with minimal risk factors"
    else if isLegitimate ∧ confidenceScore > 60 then
      "LIKELY LEGITIMATE - Good transparency indicators with some areas for improvement"
    else if isLegitimate then
      "POSSIBLY LEGITIMATE - Some transparency indicators but requires further verification"
    else
      "SUSPICIOUS - Multiple risk factors detected, proceed with caution"
  { isLegitimate := isLegitimate
    confidenceScore := confidenceScore
    riskFactors := riskFactors
    transparencyIndicators := transparencyIndicators
    overallRecommendation := recommendation }

/-! ## Ledger shim error boundary (solanaService.ts) -/

/-- initializeAttestationAccount of solanaService.ts at its error
boundary. The argument is the outcome of the awaited initialize
instruction submission (a transaction signature on success, an error
message on rejection); the programReady flag models the this.program
null check that throws before the try block. -/
def initializeAttestationAccount (programReady : Bool)
    (rpcResult : Except String String) : Except String String :=
  if programReady = false then .error "Program not initialized"
  else
    match rpcResult with
    | .ok tx => .ok tx
    | .error e =>
      if includes e "already in use" then .ok "already-initialized" else .error e

/-! ## Session state machine (App.tsx handlers and UI guards)

The React component state of AppContent, together with the three handlers
(handleGenerateProof, handleVote, handleVerifyProof), the reset button of
the verification-complete banner, and the disabled conditions of the
input field, the ProofGenerator button, the ProofVerifier button and the
CommunityVotingPanel buttons, forms one state machine per browser
session. The wallet is assumed connected (connection is delegated to an
external adapter and only gates buttons off while disconnected, which
cannot enable any extra transition). An asynchronous handler is split
into its observable React-state updates: the generate handler first sets
the generating status and records the domain key, and later either
publishes the analysis (pending vote) or hits its catch (error); the
verify handler first sets the verifying status and later either
publishes the result (verification complete) or hits its catch (error).
The proof hash produced by Math.random is an action parameter. -/

/-- The ProofStatus union of types/index.ts: idle, generating,
pending_vote, success, verifying, verification_complete, error. -/
inductive ProofStatus where
  | idle
  | generating
  | pendingVote
  | success
  | verifying
  | verificationComplete
  | error
  deriving DecidableEq, Repr

/-- The React component state of AppContent. The analyzedDomains Set is
a list of keys without duplicates (insertion checks membership). -/
structure SessionState where
  proofStatus : ProofStatus
  proofHash : String
  verificationResult : Option Bool
  projectData : Option ProjectTransparencyData
  legitimacyAssessment : Option LegitimacyAssessment
  projectDomain : String
  userVote : Option UserVote
  analyzedDomains : List String
  deriving DecidableEq, Repr

/-- The initial component state: idle, everything empty. -/
def initialState : SessionState :=
  { proofStatus := .idle
    proofHash := ""
    verificationResult := none
    projectData := none
    legitimacyAssessment := none
    projectDomain := ""
    userVote := none
    analyzedDomains := [] }

/-- The key stored in analyzedDomains: projectDomain.trim().toLowerCase(). -/
def domainKey (s : SessionState) : String := toLower (trimStr s.projectDomain)

/-- new Set(prev ∪ single key): membership-checked insertion. -/
def insertKey (l : List String) (k : String) : List String :=
  if k ∈ l then l else l ++ [k]

/-- The observable user and promise events driving the session. -/
inductive Action where
  | setDomain (d : String)
  | generateStart
  | generateFinish (hash : String)
  | generateFail
  | voteCast (isLegitimate : Bool) (confidenceLevel : Nat)
  | verifyStart
  | verifyFinish
  | verifyFail
  | reset
  deriving DecidableEq, Repr

/-- Enabled condition of the ProofGenerator button (negation of its
disabled prop, with the wallet connected). -/
abbrev generateEnabled (s : SessionState) : Prop :=
  trimStr s.projectDomain ≠ "" ∧
  s.proofStatus ≠ .generating ∧ s.proofStatus ≠ .verifying ∧
  s.proofStatus ≠ .pendingVote ∧ s.proofStatus ≠ .success ∧
  s.proofStatus ≠ .verificationComplete ∧
  s.userVote = none ∧ domainKey s ∉ s.analyzedDomains

/-- Enabled condition of the ProofVerifier button (negation of its
disabled prop, with the wallet connected), conjoined with the guards at
the top of handleVerifyProof that return early without a state change. -/
abbrev verifyEnabled (s : SessionState) : Prop :=
  s.proofHash ≠ "" ∧ s.userVote ≠ none ∧
  s.proofStatus ≠ .generating ∧ s.proofStatus ≠ .verifying ∧
  s.proofStatus ≠ .pendingVote ∧ s.proofStatus ≠ .idle ∧
  s.proofStatus ≠ .error ∧ s.proofStatus ≠ .verificationComplete ∧
  s.projectData ≠ none ∧ s.legitimacyAssessment ≠ none

/-- Enabled condition of the voting buttons: the CommunityVotingPanel is
rendered only when projectData and legitimacyAssessment are present, and
its buttons are disabled once a vote was cast (hasVoted). -/
abbrev voteEnabled (s : SessionState) : Prop :=
  s.projectData ≠ none ∧ s.legitimacyAssessment ≠ none ∧ s.userVote = none

/-- One transition of the session; none when the corresponding UI
affordance is disabled or the handler event cannot occur in this state.
- setDomain: typing in the input field (disabled while generating or
  verifying).
- generateStart: handleGenerateProof up to its first await: the empty
  domain check (dead under the button guard, kept from the source), the
  generating status, and the insertion of the domain key.
- generateFinish: the rest of the successful generate path: proof hash,
  analysis, assessment, pending-vote status.
- generateFail: the catch of handleGenerateProof: error status only.
- voteCast: handleVote: records the vote and sets the success status.
- verifyStart: handleVerifyProof up to its await: verifying status.
- verifyFinish: the successful verify path: verification result computed
  from the stored assessment, analysis and vote, completion status.
- verifyFail: the catch of handleVerifyProof: error status.
- reset: the analyze-another-project button, shown only on completion:
  clears the per-analysis fields, keeps analyzedDomains. -/
def step (s : SessionState) : Action → Option SessionState
  | .setDomain d =>
    if s.proofStatus = .generating ∨ s.proofStatus = .verifying then none
    else some { s with projectDomain := d }
  | .generateStart =>
    if generateEnabled s then
      if trimStr s.projectDomain = "" then some { s with proofStatus := .error }
      else some { s with proofStatus := .generating,
                         analyzedDomains := insertKey s.analyzedDomains (domainKey s) }
    else none
  | .generateFinish hash =>
    if s.proofStatus = .generating then
      let analyzedProjectData := analyzeProjectTransparency (trimStr s.projectDomain)
      let assessedLegitimacy := assessLegitimacy analyzedProjectData
      some { s with proofHash := hash
                    projectData := some analyzedProjectData
                    legitimacyAssessment := some assessedLegitimacy
                    proofStatus := .pendingVote }
    else none
  | .generateFail =>
    if s.proofStatus = .generating then some { s with proofStatus := .error } else none
  | .voteCast isLegitimate confidenceLevel =>
    if voteEnabled s then
      some { s with userVote := some { isLegitimate := isLegitimate
                                       confidence := confidenceLevel }
                    proofStatus := .success }
    else none
  | .verifyStart =>
    if verifyEnabled s then some { s with proofStatus := .verifying } else none
  | .verifyFinish =>
    match s.projectData, s.legitimacyAssessment, s.userVote with
    | some projectData, some legitimacyAssessment, some userVote =>
      if s.proofStatus = .verifying then
        some { s with verificationResult :=
                        some (isProofValid legitimacyAssessment projectData userVote)
                      proofStatus := .verificationComplete }
      else none
    | _, _, _ => none
  | .verifyFail =>
    if s.proofStatus = .verifying then some { s with proofStatus := .error } else none
  | .reset =>
    if s.proofStatus = .verificationComplete then
      some { s with proofStatus := .idle
                    projectData := none
                    legitimacyAssessment := none
                    userVote := none
                    proofHash := ""
                    verificationResult := none
                    projectDomain := "" }
    else none

/-- Run a sequence of actions; none as soon as one is unavailable. -/
def runList (s : SessionState) : List Action → Option SessionState
  | [] => some s
  | a :: rest =>
    match step s a with
    | some s2 => runList s2 rest
    | none => none

/-- Reachability invariant of the session: the stored analysis, vote and
status stay mutually consistent. -/
def Inv (s : SessionState) : Prop :=
  (s.projectData.isSome ∧ s.userVote = none → s.proofStatus = .pendingVote) ∧
  (s.proofStatus = .generating → s.userVote = none ∧ s.projectData = none) ∧
  (s.proofStatus = .success → s.userVote.isSome) ∧
  (s.proofStatus = .verifying → s.userVote.isSome) ∧
  (s.proofStatus = .verificationComplete → s.userVote.isSome)

/-! ## Concrete fixtures used by the witness theorems -/

/-- Analysis of scam.com, a domain hitting the scam branch. -/
def scamProject : ProjectTransparencyData := analyzeProjectTransparency "scam.com"

/-- Assessment of the scam.com analysis. -/
def scamAssessment : LegitimacyAssessment := assessLegitimacy scamProject

/-- A session about to finish verification where the user voted not
legitimate with confidence 3. -/
def verifyingNoState : SessionState :=
  { proofStatus := .verifying
    proofHash := "h1"
    verificationResult := none
    projectData := some scamProject
    legitimacyAssessment := some scamAssessment
    projectDomain := "scam.com"
    userVote := some { isLegitimate := false, confidence := 3 }
    analyzedDomains := ["scam.com"] }

/-- The state after verifyFinish from verifyingNoState. -/
def verifiedNoState : SessionState :=
  { verifyingNoState with verificationResult := some false
                          proofStatus := .verificationComplete }

/-- A probe-outcome record with every probe negative, for an allow-listed
domain. -/
def allNegativeScoreData : ScoreData :=
  { hasPublicGithub := false
    githubStars := 0
    githubForks := 0
    codeReviewScore := 0
    hasDocumentedRoadmap := false
    hasAuditReports := false
    hasTeamVerification := false
    hasTokenEconomics := false
    domain := some "google.com" }

/-- A network environment whose certificate probe rejects. -/
def certFailEnv : NetEnv :=
  { certResult := .error "Failed to fetch"
    githubResult := .ok { found := false, stars := 0, forks := 0, codeReviewScore := 0 }
    roadmapResult := .ok false
    auditResult := .ok false
    teamResult := .ok false
    tokenResult := .ok false }

/-- A completed session ready for the reset button. -/
def completedState : SessionState :=
  { proofStatus := .verificationComplete
    proofHash := "zz"
    verificationResult := some true
    projectData := some scamProject
    legitimacyAssessment := some scamAssessment
    projectDomain := "x.com"
    userVote := some { isLegitimate := true, confidence := 5 }
    analyzedDomains := ["x.com"] }

/-- The state the reset button produces from completedState. -/
def afterResetState : SessionState :=
  { completedState with proofStatus := .idle
                        projectData := none
                        legitimacyAssessment := none
                        userVote := none
                        proofHash := ""
                        verificationResult := none
                        projectDomain := "" }

/-- A full happy-path action sequence from the initial state. -/
def happyActs : List Action :=
  [.setDomain "example.com", .generateStart, .generateFinish "p1",
   .voteCast true 5, .verifyStart, .verifyFinish]

/-- Analysis of example.com. -/
def exampleProject : ProjectTransparencyData := analyzeProjectTransparency "example.com"

/-- Assessment of the example.com analysis. -/
def exampleAssessment : LegitimacyAssessment := assessLegitimacy exampleProject

/-- The state reached by happyActs. -/
def happyFinalState : SessionState :=
  { proofStatus := .verificationComplete
    proofHash := "p1"
    verificationResult := some (isProofValid exampleAssessment exampleProject
      { isLegitimate := true, confidence := 5 })
    projectData := some exampleProject
    legitimacyAssessment := some exampleAssessment
    projectDomain := "example.com"
    userVote := some { isLegitimate := true, confidence := 5 }
    analyzedDomains := ["example.com"] }

/-- An idle session with a domain typed in. -/
def typedState : SessionState := { initialState with projectDomain := "fail-example.com" }

/-- The state right after generateStart from typedState. -/
def generatingState : SessionState :=
  { typedState with proofStatus := .generating
                    analyzedDomains := ["fail-example.com"] }

/-- The state after the generate attempt from typedState fails. -/
def failedGenerateState : SessionState := { generatingState with proofStatus := .error }

/-! ## Helper lemmas -/

theorem lowerChar_idem (c : Char) : lowerChar (lowerChar c) = lowerChar c := by
  have hof : ∀ n, n < 123 → (Char.ofNat n).toNat = n := by decide
  unfold lowerChar
  by_cases h : 65 ≤ c.toNat ∧ c.toNat ≤ 90
  · rw [if_pos h, if_neg]
    rw [hof (c.toNat + 32) (by omega)]
    omega
  · rw [if_neg h, if_neg h]

theorem toLower_idem (s : String) : toLower (toLower s) = toLower s := by
  simp only [toLower, List.map_map]
  exact congrArg String.mk (List.map_congr_left (fun c _ => lowerChar_idem c))

theorem includes_self (d : String) : includes d d = true := by
  simp only [includes, decide_eq_true_eq]
  exact ⟨[], [], by simp⟩

/-! ## Claim theorems -/

/-- Claim C9: the assessor (both the App.tsx variant and the service
variant) copies the transparency score into the confidence score; no rule
recomputes or mutates it. -/
theorem assess_confidence_eq_transparency (p : ProjectTransparencyData)
    (q : TransparencyAnalysisResult) :
    (assessLegitimacy p).confidenceScore = p.transparencyScore ∧
    (assessLegitimacyNet q).confidenceScore = (q.transparencyScore : Int) :=
  ⟨rfl, rfl⟩

/-- Claim C8: a failed initialize submission is rethrown to the caller,
except that a failure whose message mentions the account being already in
use is converted to the success value already-initialized. -/
theorem initializeAttestation_error_boundary (e : String) :
    (includes e "already in use" = true →
      initializeAttestationAccount true (.error e) = .ok "already-initialized") ∧
    (includes e "already in use" = false →
      initializeAttestationAccount true (.error e) = .error e) := by
  constructor <;> intro h <;> simp [initializeAttestationAccount, h]

/-- Witness for claim C8 at one matching and one non-matching message. -/
theorem initializeAttestation_error_boundary_witness :
    initializeAttestationAccount true
      (.error "Allocate: account Address already in use") = .ok "already-initialized" ∧
    initializeAttestationAccount true
      (.error "User rejected the request") = .error "User rejected the request" :=
  ⟨(initializeAttestation_error_boundary "Allocate: account Address already in use").1
      (by decide),
   (initializeAttestation_error_boundary "User rejected the request").2 (by decide)⟩

/-- Claim C6: whenever any awaited step inside the service analyzer
rejects, the analyzer returns the fixed fallback result (score 50, risk
5, all five metadata flags false) instead of raising; by its return type
the analyzer never propagates an error to its caller. -/
theorem analyzer_fallback_on_reject (env : NetEnv) (domain e : String)
    (herr : analyzeBody env domain = .error e) :
    analyzeProjectTransparencyNet env domain = getFallbackAnalysis domain ∧
    (analyzeProjectTransparencyNet env domain).transparencyScore = 50 ∧
    (analyzeProjectTransparencyNet env domain).riskLevel = 5 ∧
    (analyzeProjectTransparencyNet env domain).metadata.hasPublicGithub = false ∧
    (analyzeProjectTransparencyNet env domain).metadata.hasDocumentedRoadmap = false ∧
    (analyzeProjectTransparencyNet env domain).metadata.hasAuditReports = false ∧
    (analyzeProjectTransparencyNet env domain).metadata.hasTeamVerification = false ∧
    (analyzeProjectTransparencyNet env domain).metadata.hasTokenEconomics = false := by
  simp [analyzeProjectTransparencyNet, herr, getFallbackAnalysis]

/-- Witness for claim C6: a rejecting certificate probe yields the
fallback result. -/
theorem analyzer_fallback_on_reject_witness :
    analyzeProjectTransparencyNet certFailEnv "example.org" =
      getFallbackAnalysis "example.org" :=
  (analyzer_fallback_on_reject certFailEnv "example.org" "Failed to fetch" rfl).1

/-- Claim C1: any domain whose lowercased form mentions scam, fake or
phishing gets risk 10, transparency 10 and all five metadata flags
cleared, whatever other keyword branches matched before. -/
theorem analyze_scam_overrides (d : String)
    (h : includes (toLower d) "scam" = true ∨ includes (toLower d) "fake" = true ∨
      includes (toLower d) "phishing" = true) :
    (analyzeProjectTransparency d).riskLevel = 10 ∧
    (analyzeProjectTransparency d).transparencyScore = 10 ∧
    (analyzeProjectTransparency d).metadata.hasPublicGithub = false ∧
    (analyzeProjectTransparency d).metadata.hasDocumentedRoadmap = false ∧
    (analyzeProjectTransparency d).metadata.hasAuditReports = false ∧
    (analyzeProjectTransparency d).metadata.hasTeamVerification = false ∧
    (analyzeProjectTransparency d).metadata.hasTokenEconomics = false := by
  have hscam : (includes (toLower d) "scam" || includes (toLower d) "fake" ||
      includes (toLower d) "phishing") = true := by
    rcases h with h | h | h <;> simp [h]
  simp only [analyzeProjectTransparency, hscam]
  cases hn : (includes (toLower d) "new" || includes (toLower d) "beta") <;> simp [hn]

/-- Witness for claim C1 at scam.com. -/
theorem analyze_scam_overrides_witness :
    (analyzeProjectTransparency "scam.com").riskLevel = 10 ∧
    (analyzeProjectTransparency "scam.com").transparencyScore = 10 ∧
    (analyzeProjectTransparency "scam.com").metadata.hasPublicGithub = false ∧
    (analyzeProjectTransparency "scam.com").metadata.hasDocumentedRoadmap = false ∧
    (analyzeProjectTransparency "scam.com").metadata.hasAuditReports = false ∧
    (analyzeProjectTransparency "scam.com").metadata.hasTeamVerification = false ∧
    (analyzeProjectTransparency "scam.com").metadata.hasTokenEconomics = false :=
  analyze_scam_overrides "scam.com" (Or.inl (by decide))

/-- Claim C2: the verify step stores the conjunction of the stored
assessment legitimacy flag, transparencyScore above 30 and the user vote
being legitimate; hence a session whose vote says not legitimate always
completes verification with a false result. -/
theorem verify_conjoins_user_vote (s s2 : SessionState) (a : LegitimacyAssessment)
    (p : ProjectTransparencyData) (v : UserVote)
    (ha : s.legitimacyAssessment = some a) (hp : s.projectData = some p)
    (hv : s.userVote = some v) (hstep : step s .verifyFinish = some s2) :
    s2.verificationResult =
      some (a.isLegitimate && decide (p.transparencyScore > 30) && v.isLegitimate) ∧
    (v.isLegitimate = false → s2.verificationResult = some false) := by
  simp only [step, ha, hp, hv] at hstep
  split at hstep
  · next hver =>
    have hs2 := Option.some.inj hstep
    subst hs2
    refine ⟨rfl, fun hfalse => ?_⟩
    simp [isProofValid, hfalse]
  · exact absurd hstep (by simp)

/-- Witness for claim C2: the session verifyingNoState, where the vote
is not legitimate, finishes with a false verification result. -/
theorem verify_conjoins_user_vote_witness :
    verifiedNoState.verificationResult = some false :=
  (verify_conjoins_user_vote verifyingNoState verifiedNoState scamAssessment scamProject
    { isLegitimate := false, confidence := 3 } rfl rfl rfl (by decide)).2 rfl

/-- Claim C3: a domain of the static allow-list scores at least 85 in
calculateTransparencyScore, for every combination of probe outcomes. -/
theorem established_score_floor (d : String) (data : ScoreData)
    (hd : d ∈ establishedDomains) (hdom : data.domain = some d) :
    85 ≤ calculateTransparencyScore data := by
  have hest : isEstablishedCompany (data.domain.getD "") = true := by
    rw [hdom]
    simp only [isEstablishedCompany, Option.getD_some, List.any_eq_true]
    exact ⟨d, hd, includes_self d⟩
  simp only [calculateTransparencyScore, hest, if_true]
  cases hpg : data.hasPublicGithub <;> cases htv : data.hasTeamVerification <;>
    cases har : data.hasAuditReports <;> simp [hpg, htv, har]

/-- Witness for claim C3: google.com with every probe negative. -/
theorem established_score_floor_witness :
    85 ≤ calculateTransparencyScore allNegativeScoreData :=
  established_score_floor "google.com" allNegativeScoreData (by decide) rfl

/-- Claim C5 counterexample: cleanDomain is not idempotent; an uppercase
scheme survives the case-sensitive first pass and is stripped only by the
second. -/
theorem cleanDomain_not_idempotent :
    cleanDomain (cleanDomain "HTTP://Example.com") ≠ cleanDomain "HTTP://Example.com" := by
  decide

/-- Claim C5 as amended: normalization is idempotent on every input whose
normalized form does not itself start with a scheme or www. prefix and
does not end with a slash. -/
theorem cleanDomain_idempotent_of_normalized (d : String)
    (h1 : startsWith "https://" (cleanDomain d) = false)
    (h2 : startsWith "http://" (cleanDomain d) = false)
    (h3 : startsWith "www." (cleanDomain d) = false)
    (h4 : (cleanDomain d).data.getLast? ≠ some '/') :
    cleanDomain (cleanDomain d) = cleanDomain d := by
  have hscheme : stripScheme (cleanDomain d) = cleanDomain d := by
    simp [stripScheme, h1, h2]
  have hwww : stripWww (stripScheme (cleanDomain d)) = cleanDomain d := by
    rw [hscheme]; simp [stripWww, h3]
  have hslash : stripTrailingSlash (stripWww (stripScheme (cleanDomain d))) = cleanDomain d := by
    rw [hwww]; simp [stripTrailingSlash, h4]
  show toLower (stripTrailingSlash (stripWww (stripScheme (cleanDomain d)))) = cleanDomain d
  rw [hslash]
  show toLower (toLower (stripTrailingSlash (stripWww (stripScheme d)))) = cleanDomain d
  rw [toLower_idem]
  rfl

/-- Witness for the amended claim C5. -/
theorem cleanDomain_idempotent_of_normalized_witness :
    cleanDomain (cleanDomain "https://www.Example.com/") =
      cleanDomain "https://www.Example.com/" :=
  cleanDomain_idempotent_of_normalized "https://www.Example.com/"
    (by decide) (by decide) (by decide) (by decide)

/-- Claim C7: the reset button fires only in the verification-complete
state, returns to idle, clears exactly the per-analysis fields (analysis,
assessment, vote, proof hash, verification result, domain input) and
keeps the analyzed-domain set. -/
theorem reset_frame (s s2 : SessionState) (hstep : step s .reset = some s2) :
    s.proofStatus = .verificationComplete ∧
    s2.proofStatus = .idle ∧ s2.projectData = none ∧ s2.legitimacyAssessment = none ∧
    s2.userVote = none ∧ s2.proofHash = "" ∧ s2.verificationResult = none ∧
    s2.projectDomain = "" ∧ s2.analyzedDomains = s.analyzedDomains := by
  simp only [step] at hstep
  split at hstep
  · next hvc =>
    have hs2 := Option.some.inj hstep
    subst hs2
    exact ⟨hvc, rfl, rfl, rfl, rfl, rfl, rfl, rfl, rfl⟩
  · exact absurd hstep (by simp)

/-- Witness for claim C7 from a concrete completed session. -/
theorem reset_frame_witness :
    completedState.proofStatus = .verificationComplete ∧
    afterResetState.proofStatus = .idle ∧ afterResetState.projectData = none ∧
    afterResetState.legitimacyAssessment = none ∧ afterResetState.userVote = none ∧
    afterResetState.proofHash = "" ∧ afterResetState.verificationResult = none ∧
    afterResetState.projectDomain = "" ∧
    afterResetState.analyzedDomains = completedState.analyzedDomains :=
  reset_frame completedState afterResetState (by decide)

/-! ## State-machine lemmas -/

theorem runList_append (s : SessionState) (l : List Action) (a : Action) :
    runList s (l ++ [a]) = (runList s l).bind (fun s2 => step s2 a) := by
  induction l generalizing s with
  | nil => cases h : step s a <;> simp [runList, h]
  | cons b rest ih =>
    simp only [List.cons_append, runList]
    cases h : step s b <;> simp [h, ih]

theorem subset_insertKey (l : List String) (k : String) : l ⊆ insertKey l k := by
  unfold insertKey
  split
  · exact fun x hx => hx
  · exact List.subset_append_left _ _

theorem step_mono_analyzed (s s2 : SessionState) (a : Action)
    (hstep : step s a = some s2) : s.analyzedDomains ⊆ s2.analyzedDomains := by
  cases a with
  | setDomain d =>
    simp only [step] at hstep
    split at hstep
    · exact absurd hstep (by simp)
    · have h := Option.some.inj hstep; subst h; exact fun x hx => hx
  | generateStart =>
    simp only [step] at hstep
    split at hstep
    · split at hstep
      · have h := Option.some.inj hstep; subst h; exact fun x hx => hx
      · have h := Option.some.inj hstep; subst h
        exact subset_insertKey _ _
    · exact absurd hstep (by simp)
  | generateFinish hash =>
    simp only [step] at hstep
    split at hstep
    · have h := Option.some.inj hstep; subst h; exact fun x hx => hx
    · exact absurd hstep (by simp)
  | generateFail =>
    simp only [step] at hstep
    split at hstep
    · have h := Option.some.inj hstep; subst h; exact fun x hx => hx
    · exact absurd hstep (by simp)
  | voteCast b c =>
    simp only [step] at hstep
    split at hstep
    · have h := Option.some.inj hstep; subst h; exact fun x hx => hx
    · exact absurd hstep (by simp)
  | verifyStart =>
    simp only [step] at hstep
    split at hstep
    · have h := Option.some.inj hstep; subst h; exact fun x hx => hx
    · exact absurd hstep (by simp)
  | verifyFinish =>
    cases hpd : s.projectData with
    | none => simp [step, hpd] at hstep
    | some p =>
      cases hla : s.legitimacyAssessment with
      | none => simp [step, hpd, hla] at hstep
      | some aa =>
        cases huv : s.userVote with
        | none => simp [step, hpd, hla, huv] at hstep
        | some v =>
          simp only [step, hpd, hla, huv] at hstep
          split at hstep
          · have h := Option.some.inj hstep; subst h; exact fun x hx => hx
          · exact absurd hstep (by simp)
  | verifyFail =>
    simp only [step] at hstep
    split at hstep
    · have h := Option.some.inj hstep; subst h; exact fun x hx => hx
    · exact absurd hstep (by simp)
  | reset =>
    simp only [step] at hstep
    split at hstep
    · have h := Option.some.inj hstep; subst h; exact fun x hx => hx
    · exact absurd hstep (by simp)

theorem runList_mono_analyzed (l : List Action) (s s2 : SessionState)
    (h : runList s l = some s2) : s.analyzedDomains ⊆ s2.analyzedDomains := by
  induction l generalizing s with
  | nil =>
    simp only [runList, Option.some.injEq] at h
    subst h; exact fun x hx => hx
  | cons a rest ih =>
    simp only [runList] at h
    cases hst : step s a with
    | none => rw [hst] at h; exact absurd h (by simp)
    | some s1 =>
      rw [hst] at h
      exact (step_mono_analyzed s s1 a hst).trans (ih s1 h)

theorem inv_initialState : Inv initialState := by
  refine ⟨?_, ?_, ?_, ?_, ?_⟩ <;> intro h <;> simp [initialState] at h

theorem inv_step (s s2 : SessionState) (a : Action) (hInv : Inv s)
    (hstep : step s a = some s2) : Inv s2 := by
  obtain ⟨h1, h2, h3, h4, h5⟩ := hInv
  cases a with
  | setDomain d =>
    simp only [step] at hstep
    split at hstep
    · exact absurd hstep (by simp)
    · have h := Option.some.inj hstep; subst h
      exact ⟨h1, h2, h3, h4, h5⟩
  | generateStart =>
    simp only [step] at hstep
    split at hstep
    · next hen =>
      obtain ⟨hne, hg, hv, hpv, hsc, hvc, hvote, hmem⟩ := hen
      split at hstep
      · next hempty => exact absurd hempty hne
      · have h := Option.some.inj hstep; subst h
        have hpd : s.projectData = none := by
          cases hd : s.projectData with
          | none => rfl
          | some _ => exact absurd (h1 ⟨by simp [hd], hvote⟩) hpv
        refine ⟨?_, ?_, ?_, ?_, ?_⟩ <;> dsimp only <;> intro h
        · rw [hpd] at h; simp at h
        · exact ⟨hvote, hpd⟩
        · exact absurd h (by decide)
        · exact absurd h (by decide)
        · exact absurd h (by decide)
    · exact absurd hstep (by simp)
  | generateFinish hash =>
    simp only [step] at hstep
    split at hstep
    · next hgen =>
      have h := Option.some.inj hstep; subst h
      refine ⟨?_, ?_, ?_, ?_, ?_⟩ <;> dsimp only <;> intro h
      · rfl
      · exact absurd h (by decide)
      · exact absurd h (by decide)
      · exact absurd h (by decide)
      · exact absurd h (by decide)
    · exact absurd hstep (by simp)
  | generateFail =>
    simp only [step] at hstep
    split at hstep
    · next hgen =>
      have h := Option.some.inj hstep; subst h
      obtain ⟨hvote, hpd⟩ := h2 hgen
      refine ⟨?_, ?_, ?_, ?_, ?_⟩ <;> dsimp only <;> intro h
      · rw [hpd] at h; simp at h
      · exact absurd h (by decide)
      · exact absurd h (by decide)
      · exact absurd h (by decide)
      · exact absurd h (by decide)
    · exact absurd hstep (by simp)
  | voteCast b c =>
    simp only [step] at hstep
    split at hstep
    · next hen =>
      have h := Option.some.inj hstep; subst h
      refine ⟨?_, ?_, ?_, ?_, ?_⟩ <;> dsimp only <;> intro h
      · simp at h
      · exact absurd h (by decide)
      · rfl
      · exact absurd h (by decide)
      · exact absurd h (by decide)
    · exact absurd hstep (by simp)
  | verifyStart =>
    simp only [step] at hstep
    split at hstep
    · next hen =>
      have h := Option.some.inj hstep; subst h
      have huvs : s.userVote.isSome = true := Option.isSome_iff_ne_none.mpr hen.2.1
      refine ⟨?_, ?_, ?_, ?_, ?_⟩ <;> dsimp only <;> intro h
      · exact absurd h.2 hen.2.1
      · exact absurd h (by decide)
      · exact absurd h (by decide)
      · exact huvs
      · exact absurd h (by decide)
    · exact absurd hstep (by simp)
  | verifyFinish =>
    cases hpd : s.projectData with
    | none => simp [step, hpd] at hstep
    | some p =>
      cases hla : s.legitimacyAssessment with
      | none => simp [step, hpd, hla] at hstep
      | some aa =>
        cases huv : s.userVote with
        | none => simp [step, hpd, hla, huv] at hstep
        | some v =>
          simp only [step, hpd, hla, huv] at hstep
          split at hstep
          · have h := Option.some.inj hstep; subst h
            refine ⟨?_, ?_, ?_, ?_, ?_⟩ <;> dsimp only <;> intro h
            · simp at h
            · exact absurd h (by decide)
            · exact absurd h (by decide)
            · exact absurd h (by decide)
            · rfl
          · exact absurd hstep (by simp)
  | verifyFail =>
    simp only [step] at hstep
    split at hstep
    · next hver =>
      have h := Option.some.inj hstep; subst h
      have huvs := h4 hver
      refine ⟨?_, ?_, ?_, ?_, ?_⟩ <;> dsimp only <;> intro h
      · rw [h.2] at huvs; simp at huvs
      · exact absurd h (by decide)
      · exact absurd h (by decide)
      · exact absurd h (by decide)
      · exact absurd h (by decide)
    · exact absurd hstep (by simp)
  | reset =>
    simp only [step] at hstep
    split at hstep
    · have h := Option.some.inj hstep; subst h
      refine ⟨?_, ?_, ?_, ?_, ?_⟩ <;> dsimp only <;> intro h
      · simp at h
      · exact absurd h (by decide)
      · exact absurd h (by decide)
      · exact absurd h (by decide)
      · exact absurd h (by decide)
    · exact absurd hstep (by simp)

theorem inv_runList (l : List Action) (s s2 : SessionState) (hInv : Inv s)
    (h : runList s l = some s2) : Inv s2 := by
  induction l generalizing s with
  | nil =>
    simp only [runList, Option.some.injEq] at h
    subst h; exact hInv
  | cons a rest ih =>
    simp only [runList] at h
    cases hst : step s a with
    | none => rw [hst] at h; exact absurd h (by simp)
    | some s1 =>
      rw [hst] at h
      exact ih s1 (inv_step s s1 a hInv hst) h

theorem passes_pendingVote (acts : List Action) (s : SessionState)
    (h : runList initialState acts = some s)
    (hstat : s.proofStatus = .pendingVote ∨ s.proofStatus = .success ∨
      s.proofStatus = .verifying ∨ s.proofStatus = .verificationComplete) :
    ∃ pre s1, pre <+: acts ∧ runList initialState pre = some s1 ∧
      s1.proofStatus = .pendingVote := by
  induction acts using List.reverseRecOn generalizing s with
  | nil =>
    simp only [runList, Option.some.injEq] at h
    subst h
    rcases hstat with h' | h' | h' | h' <;> exact absurd h' (by decide)
  | append_singleton l a ih =>
    have horig := h
    rw [runList_append] at h
    cases hmid : runList initialState l with
    | none => rw [hmid] at h; exact absurd h (by simp)
    | some s1 =>
      rw [hmid] at h
      replace h : step s1 a = some s := h
      cases a with
      | setDomain d =>
        simp only [step] at h
        split at h
        · exact absurd h (by simp)
        · have hs := Option.some.inj h; subst hs
          dsimp only at hstat
          obtain ⟨pre, t, hpre, hrun, hp⟩ := ih s1 hmid hstat
          exact ⟨pre, t, hpre.trans (List.prefix_append l [Action.setDomain d]), hrun, hp⟩
      | generateStart =>
        simp only [step] at h
        split at h
        · split at h
          · have hs := Option.some.inj h; subst hs
            rcases hstat with h' | h' | h' | h' <;> simp at h'
          · have hs := Option.some.inj h; subst hs
            rcases hstat with h' | h' | h' | h' <;> simp at h'
        · exact absurd h (by simp)
      | generateFinish hash =>
        simp only [step] at h
        split at h
        · have hs := Option.some.inj h; subst hs
          exact ⟨l ++ [Action.generateFinish hash], _, List.prefix_refl _, horig, rfl⟩
        · exact absurd h (by simp)
      | generateFail =>
        simp only [step] at h
        split at h
        · have hs := Option.some.inj h; subst hs
          rcases hstat with h' | h' | h' | h' <;> simp at h'
        · exact absurd h (by simp)
      | voteCast b c =>
        simp only [step] at h
        split at h
        · next hen =>
          have hs := Option.some.inj h; subst hs
          obtain ⟨hpdne, hlane, hvnone⟩ := hen
          have hpend : s1.proofStatus = .pendingVote :=
            (inv_runList l initialState s1 inv_initialState hmid).1
              ⟨Option.isSome_iff_ne_none.mpr hpdne, hvnone⟩
          exact ⟨l, s1, List.prefix_append l [Action.voteCast b c], hmid, hpend⟩
        · exact absurd h (by simp)
      | verifyStart =>
        simp only [step] at h
        split at h
        · next hen =>
          have hs := Option.some.inj h; subst hs
          obtain ⟨hh, hu, hg, hv, hpv, hid, herr, hvc, hpdne, hlane⟩ := hen
          have hsucc : s1.proofStatus = .success := by
            cases hps : s1.proofStatus
            · exact absurd hps hid
            · exact absurd hps hg
            · exact absurd hps hpv
            · rfl
            · exact absurd hps hv
            · exact absurd hps hvc
            · exact absurd hps herr
          obtain ⟨pre, t, hpre, hrun, hp⟩ := ih s1 hmid (Or.inr (Or.inl hsucc))
          exact ⟨pre, t, hpre.trans (List.prefix_append l [Action.verifyStart]), hrun, hp⟩
        · exact absurd h (by simp)
      | verifyFinish =>
        cases hpd : s1.projectData with
        | none => simp [step, hpd] at h
        | some p =>
          cases hla : s1.legitimacyAssessment with
          | none => simp [step, hpd, hla] at h
          | some aa =>
            cases huv : s1.userVote with
            | none => simp [step, hpd, hla, huv] at h
            | some v =>
              simp only [step, hpd, hla, huv] at h
              split at h
              · next hver =>
                have hs := Option.some.inj h; subst hs
                obtain ⟨pre, t, hpre, hrun, hp⟩ :=
                  ih s1 hmid (Or.inr (Or.inr (Or.inl hver)))
                exact ⟨pre, t, hpre.trans (List.prefix_append l [Action.verifyFinish]),
                  hrun, hp⟩
              · exact absurd h (by simp)
      | verifyFail =>
        simp only [step] at h
        split at h
        · have hs := Option.some.inj h; subst hs
          rcases hstat with h' | h' | h' | h' <;> simp at h'
        · exact absurd h (by simp)
      | reset =>
        simp only [step] at h
        split at h
        · have hs := Option.some.inj h; subst hs
          rcases hstat with h' | h' | h' | h' <;> simp at h'
        · exact absurd h (by simp)

theorem verifying_before_completion (acts : List Action) (s : SessionState)
    (h : runList initialState acts = some s)
    (hstat : s.proofStatus = .verificationComplete) :
    ∃ pre s1, pre <+: acts ∧ runList initialState pre = some s1 ∧
      s1.proofStatus = .verifying ∧ s1.userVote.isSome = true := by
  induction acts using List.reverseRecOn generalizing s with
  | nil =>
    simp only [runList, Option.some.injEq] at h
    subst h
    exact absurd hstat (by decide)
  | append_singleton l a ih =>
    rw [runList_append] at h
    cases hmid : runList initialState l with
    | none => rw [hmid] at h; exact absurd h (by simp)
    | some s1 =>
      rw [hmid] at h
      replace h : step s1 a = some s := h
      cases a with
      | setDomain d =>
        simp only [step] at h
        split at h
        · exact absurd h (by simp)
        · have hs := Option.some.inj h; subst hs
          dsimp only at hstat
          obtain ⟨pre, t, hpre, hrun, hp, hu⟩ := ih s1 hmid hstat
          exact ⟨pre, t, hpre.trans (List.prefix_append l [Action.setDomain d]),
            hrun, hp, hu⟩
      | generateStart =>
        simp only [step] at h
        split at h
        · split at h
          · have hs := Option.some.inj h; subst hs; simp at hstat
          · have hs := Option.some.inj h; subst hs; simp at hstat
        · exact absurd h (by simp)
      | generateFinish hash =>
        simp only [step] at h
        split at h
        · have hs := Option.some.inj h; subst hs; simp at hstat
        · exact absurd h (by simp)
      | generateFail =>
        simp only [step] at h
        split at h
        · have hs := Option.some.inj h; subst hs; simp at hstat
        · exact absurd h (by simp)
      | voteCast b c =>
        simp only [step] at h
        split at h
        · have hs := Option.some.inj h; subst hs; simp at hstat
        · exact absurd h (by simp)
      | verifyStart =>
        simp only [step] at h
        split at h
        · have hs := Option.some.inj h; subst hs; simp at hstat
        · exact absurd h (by simp)
      | verifyFinish =>
        cases hpd : s1.projectData with
        | none => simp [step, hpd] at h
        | some p =>
          cases hla : s1.legitimacyAssessment with
          | none => simp [step, hpd, hla] at h
          | some aa =>
            cases huv : s1.userVote with
            | none => simp [step, hpd, hla, huv] at h
            | some v =>
              simp only [step, hpd, hla, huv] at h
              split at h
              · next hver =>
                have hs := Option.some.inj h; subst hs
                refine ⟨l, s1, List.prefix_append l [Action.verifyFinish], hmid, hver, ?_⟩
                simp [huv]
              · exact absurd h (by simp)
      | verifyFail =>
        simp only [step] at h
        split at h
        · have hs := Option.some.inj h; subst hs; simp at hstat
        · exact absurd h (by simp)
      | reset =>
        simp only [step] at h
        split at h
        · have hs := Option.some.inj h; subst hs; simp at hstat
        · exact absurd h (by simp)

/-- Claim C4: starting from the initial session state, every action
sequence that ends with the verification-complete status passes through a
state with the pending-vote status, and through a state where
verification is underway with a cast vote recorded. -/
theorem verification_complete_safety (acts : List Action) (s : SessionState)
    (hrun : runList initialState acts = some s)
    (hdone : s.proofStatus = .verificationComplete) :
    (∃ pre s1, pre <+: acts ∧ runList initialState pre = some s1 ∧
      s1.proofStatus = .pendingVote) ∧
    (∃ pre s1, pre <+: acts ∧ runList initialState pre = some s1 ∧
      s1.proofStatus = .verifying ∧ s1.userVote.isSome = true) :=
  ⟨passes_pendingVote acts s hrun (Or.inr (Or.inr (Or.inr hdone))),
   verifying_before_completion acts s hrun hdone⟩

/-- Witness for claim C4 on the happy-path action sequence. -/
theorem verification_complete_safety_witness :
    (∃ pre s1, pre <+: happyActs ∧ runList initialState pre = some s1 ∧
      s1.proofStatus = .pendingVote) ∧
    (∃ pre s1, pre <+: happyActs ∧ runList initialState pre = some s1 ∧
      s1.proofStatus = .verifying ∧ s1.userVote.isSome = true) :=
  verification_complete_safety happyActs happyFinalState (by decide) (by decide)

/-- Claim C10: generateStart records the trimmed lowercased domain key in
the analyzed set before the analysis can run; no later action (in
particular a generate failure ending in the error state) ever removes it,
and while the input holds a domain with that key the generate action
stays unavailable. -/
theorem analyzed_domain_sticky (s s1 : SessionState) (acts : List Action)
    (s2 : SessionState) (hstart : step s .generateStart = some s1)
    (hrun : runList s1 acts = some s2) :
    domainKey s ∈ s1.analyzedDomains ∧ domainKey s ∈ s2.analyzedDomains ∧
    (domainKey s2 = domainKey s → step s2 .generateStart = none) := by
  have hmem1 : domainKey s ∈ s1.analyzedDomains := by
    simp only [step] at hstart
    split at hstart
    · next hen =>
      split at hstart
      · next hempty => exact absurd hempty hen.1
      · have h := Option.some.inj hstart; subst h
        dsimp only
        unfold insertKey
        split
        · assumption
        · exact List.mem_append_right _ (by simp)
    · exact absurd hstart (by simp)
  have hmem2 : domainKey s ∈ s2.analyzedDomains :=
    runList_mono_analyzed acts s1 s2 hrun hmem1
  refine ⟨hmem1, hmem2, fun hkey => ?_⟩
  have hnot : ¬ generateEnabled s2 := fun hen =>
    hen.2.2.2.2.2.2.2 (by rwa [hkey])
  simp only [step]
  rw [if_neg hnot]

/-- Witness for claim C10: a generate attempt that fails still blocks the
domain. -/
theorem analyzed_domain_sticky_witness :
    domainKey typedState ∈ generatingState.analyzedDomains ∧
    domainKey typedState ∈ failedGenerateState.analyzedDomains ∧
    (domainKey failedGenerateState = domainKey typedState →
      step failedGenerateState .generateStart = none) :=
  analyzed_domain_sticky typedState generatingState [Action.generateFail]
    failedGenerateState (by decide) (by decide)

end PoA
